import Mathlib

/-!
Verification of the rebalancing engine in `src/main.ts` of
`typescript-asset-rebalancer`.

The source file contains three concatenated revisions of the same script.
The definitions below embed, over exact rational arithmetic:

* `kahanSum` — the compensated summation primitive (all revisions);
* `calculateAllocation` — total plus per-element fractions;
* `rebalance` — the unconstrained rebalancer (final revision, with its
  length assertion modelled as an `Except.error`);
* `rebalanceWithoutNegativeRebalancing` — the final, two-pass constrained
  rebalancer (clamp then proportional reallocation);
* `rebalanceWithoutNegativeRebalancingIterative` — the middle revision's
  iterative work-queue constrained rebalancer, with its `while` loop
  modelled by a fuel-indexed iterator `redistLoop` (the termination
  theorem below shows the chosen fuel reaches the loop's exit condition).

JS `number` is modelled as `ℚ`: every claim proved here is a statement
about exact arithmetic.  Division by zero is total in Lean (`x / 0 = 0`);
wherever a denominator can be zero in the source (which in JS produces
NaN or ±∞) the theorems either assume the denominator nonzero or record
the zero denominator explicitly.
-/

/-- Kahan compensated-summation loop body: state is `(s, r)` (running sum,
running compensation), exactly as in the source's `for` loop. -/
def kahanStep (p : ℚ × ℚ) (v : ℚ) : ℚ × ℚ :=
  let t1 := v - p.2
  let t2 := p.1 + t1
  (t2, (t2 - p.1) - t1)

/-- `kahanSum(arr)`: 0 on the empty array, otherwise fold the compensation
loop over the tail starting from `(arr[0], 0)`. -/
def kahanSum : List ℚ → ℚ
  | [] => 0
  | x :: xs => (xs.foldl kahanStep (x, 0)).1

/-- `calculateAllocation(arr)`: the precise total together with each
element divided by that total. -/
def calculateAllocation (arr : List ℚ) : ℚ × List ℚ :=
  let sum := kahanSum arr
  (sum, arr.map (fun v => v / sum))

/-- `rebalance(sumInitial, allocInitial, allocTargets, sumToAdd)` (final
revision, lines 371–381): per-index adjustment
`(target - current) * sumInitial + target * sumToAdd`; the length
assertion becomes the error branch. -/
def rebalance (sumInitial : ℚ) (allocInitial allocTargets : List ℚ)
    (sumToAdd : ℚ) : Except String (List ℚ) :=
  if allocInitial.length = allocTargets.length then
    Except.ok (List.zipWith
      (fun value ai => (value - ai) * sumInitial + value * sumToAdd)
      allocTargets allocInitial)
  else Except.error "Arguments must be arrays with same length"

/-- The unclamped per-asset diffs of the two-pass constrained rebalancer
(final revision, lines 396–408): `allocTargets[i] * (sumInitial + sumToAdd)
- allocInitial[i] * sumInitial` with `(sumInitial, allocInitial) =
calculateAllocation sumsInitial`. -/
def diffsBeforeClamp (sumsInitial allocTargets : List ℚ) (sumToAdd : ℚ) :
    List ℚ :=
  let p := calculateAllocation sumsInitial
  List.zipWith (fun a ai => a * (p.1 + sumToAdd) - ai * p.1) allocTargets p.2

/-- The directional clamp of line 410: for positive `sumToAdd` negative
diffs go to 0, otherwise positive diffs go to 0. -/
def clampedDiffs (sumsInitial allocTargets : List ℚ) (sumToAdd : ℚ) :
    List ℚ :=
  (diffsBeforeClamp sumsInitial allocTargets sumToAdd).map
    (fun s => if 0 < sumToAdd then (if s < 0 then 0 else s)
              else (if 0 < s then 0 else s))

/-- `rebalanceWithoutNegativeRebalancing(sumsInitial, allocTargets,
sumToAdd)` (final revision, lines 390–417): length assertion, the
`sumToAdd === 0` early return of an all-zero array, then clamp the
unconstrained diffs, re-express them as an allocation and scale by
`sumToAdd`. -/
def rebalanceWithoutNegativeRebalancing (sumsInitial allocTargets : List ℚ)
    (sumToAdd : ℚ) : Except String (List ℚ) :=
  if sumsInitial.length = allocTargets.length then
    if sumToAdd = 0 then Except.ok (List.replicate sumsInitial.length 0)
    else
      let q := calculateAllocation (clampedDiffs sumsInitial allocTargets sumToAdd)
      Except.ok (q.2.map (fun d => d * sumToAdd))
  else Except.error "Arguments must be arrays with same length"

/-! ### The middle revision's iterative constrained rebalancer

`rebalanceWithoutNegativeRebalancing(sumInitial, allocInitial, allocTargets,
sumToAdd)` at lines 202–259: phase A computes the per-index subdivision,
zeroes the non-positive ones while accumulating their mass and collecting
the indices still positive; the `while` loop then spreads the negative
mass evenly over the active indices, flooring each at zero and removing
exhausted indices.  JS `Set` iteration order is insertion order, and only
the element currently being visited is ever deleted, so the loop body is
faithfully a traversal of the snapshot list of active indices. -/

/-- State of the redistribution `while` loop: the subdivision array, the
remaining (negative) mass to spread, and the insertion-ordered active
index set. -/
structure RedistState where
  sumDivided : List ℚ
  remaining : ℚ
  active : List Nat

/-- Phase A per-index subdivisions (line 211):
`(allocTargets[i] - allocInitial[i]) * sumInitial + allocTargets[i] * sumToAdd`. -/
def iterDiffs (sumInitial : ℚ) (allocInitial allocTargets : List ℚ)
    (sumToAdd : ℚ) : List ℚ :=
  List.zipWith (fun value ai => (value - ai) * sumInitial + value * sumToAdd)
    allocTargets allocInitial

/-- The loop state produced by phase A (lines 205–222): non-positive
subdivisions are zeroed, their sum is the mass still to distribute, and
the indices of positive subdivisions form the active set. -/
def initialRedistState (sumInitial : ℚ) (allocInitial allocTargets : List ℚ)
    (sumToAdd : ℚ) : RedistState :=
  let d := iterDiffs sumInitial allocInitial allocTargets sumToAdd
  { sumDivided := d.map (fun s => if s ≤ 0 then 0 else s)
    remaining := (d.filter (fun s => s ≤ 0)).sum
    active := (List.range d.length).filter (fun i => ¬ d.getD i 0 ≤ 0) }

/-- The body of the `for` loop of lines 233–254 for one index: add the
per-index share, flooring at 0 and charging `remaining` accordingly, then
drop the index from the active set if its subdivision is no longer
positive. -/
def passStep (i : Nat) (share : ℚ) (st : RedistState) : RedistState :=
  let effect := st.sumDivided.getD i 0 + share
  let st1 : RedistState :=
    if 0 ≤ effect then
      { sumDivided := st.sumDivided.set i effect
        remaining := st.remaining - share
        active := st.active }
    else
      { sumDivided := st.sumDivided.set i 0
        remaining := st.remaining - (share - effect)
        active := st.active }
  if st1.sumDivided.getD i 0 ≤ 0 then
    { st1 with active := st1.active.erase i }
  else st1

/-- One traversal of the active-index snapshot (the `for` of lines
233–254): run `passStep` on each index in order, breaking as soon as
`remaining` is no longer negative. -/
def passRun : List Nat → ℚ → RedistState → RedistState
  | [], _, st => st
  | i :: rest, share, st =>
    let st2 := passStep i share st
    if 0 ≤ st2.remaining then st2 else passRun rest share st2

/-- The `while` loop of lines 229–255, indexed by fuel: while `remaining`
is negative and the active set nonempty, run one even-share pass with
share `remaining / active.size`. -/
def redistLoop : Nat → RedistState → RedistState
  | 0, st => st
  | fuel + 1, st =>
    if st.remaining < 0 ∧ st.active ≠ [] then
      redistLoop fuel
        (passRun st.active (st.remaining / (st.active.length : ℚ)) st)
    else st

/-- The middle revision's full constrained rebalancer: phase A, then the
redistribution loop when any negative mass was collected.  Fuel
`active.length + 1` suffices: the termination theorem below proves the
loop's exit condition holds at that point. -/
def rebalanceWithoutNegativeRebalancingIterative (sumInitial : ℚ)
    (allocInitial allocTargets : List ℚ) (sumToAdd : ℚ) : List ℚ :=
  let st := initialRedistState sumInitial allocInitial allocTargets sumToAdd
  if st.remaining < 0 then (redistLoop (st.active.length + 1) st).sumDivided
  else st.sumDivided

/-! ### Exactness of Kahan summation over ℚ -/

theorem kahanStep_zero (s v : ℚ) : kahanStep (s, 0) v = (s + v, 0) := by
  simp [kahanStep]

theorem foldl_kahanStep (xs : List ℚ) (s : ℚ) :
    xs.foldl kahanStep (s, 0) = (s + xs.sum, 0) := by
  induction xs generalizing s with
  | nil => simp
  | cons x xs ih => simp [List.foldl_cons, kahanStep_zero, ih, add_assoc]

/-- In exact rational arithmetic the compensation term vanishes:
`kahanSum` is the plain sum. -/
theorem kahanSum_eq_sum (l : List ℚ) : kahanSum l = l.sum := by
  cases l with
  | nil => rfl
  | cons x xs => simp [kahanSum, foldl_kahanStep]

example : kahanSum [1, 2, 3] = 6 := by
  rw [kahanSum_eq_sum]; norm_num

example : calculateAllocation [1, 3] = (4, [1/4, 3/4]) := by
  norm_num [calculateAllocation, kahanSum_eq_sum]

example : rebalance 17000 [6/17, 5/17, 6/17] [3/10, 1/2, 1/5] 10000 =
    Except.ok [2100, 8500, -600] := by
  norm_num [rebalance]

example : rebalanceWithoutNegativeRebalancing [9/2, 24/5, 107/10]
    [1/2, 1/5, 3/10] 9 = Except.ok [90/11, 9/11, 0] := by
  norm_num [rebalanceWithoutNegativeRebalancing, clampedDiffs, diffsBeforeClamp,
    calculateAllocation, kahanSum_eq_sum]

/-! ### List helper lemmas -/

theorem getD_zipWith_lt (f : ℚ → ℚ → ℚ) :
    ∀ (l₁ l₂ : List ℚ) (i : Nat), i < l₁.length → i < l₂.length →
      (List.zipWith f l₁ l₂).getD i 0 = f (l₁.getD i 0) (l₂.getD i 0)
  | [], _, i, h₁, _ => by simp at h₁
  | _ :: _, [], i, _, h₂ => by simp at h₂
  | a :: l₁, b :: l₂, 0, _, _ => by simp
  | a :: l₁, b :: l₂, i + 1, h₁, h₂ => by
    simpa using getD_zipWith_lt f l₁ l₂ i (by simpa using h₁) (by simpa using h₂)

theorem getD_map_lt (f : ℚ → ℚ) :
    ∀ (l : List ℚ) (i : Nat), i < l.length →
      (l.map f).getD i 0 = f (l.getD i 0)
  | [], i, h => by simp at h
  | a :: l, 0, _ => by simp
  | a :: l, i + 1, h => by
    simpa using getD_map_lt f l i (by simpa using h)

theorem sum_eq_zero_of_getD :
    ∀ l : List ℚ, (∀ i, i < l.length → l.getD i 0 = 0) → l.sum = 0
  | [], _ => rfl
  | a :: l, h => by
    have ha : a = 0 := by simpa using h 0 (by simp)
    have hl : l.sum = 0 :=
      sum_eq_zero_of_getD l fun i hi => by simpa using h (i + 1) (by simpa using hi)
    simp [ha, hl]

theorem sum_zipWith_rebalance (S δ : ℚ) :
    ∀ (t a : List ℚ), a.length = t.length →
      (List.zipWith (fun v ai => (v - ai) * S + v * δ) t a).sum
        = (t.sum - a.sum) * S + t.sum * δ
  | [], [], _ => by simp
  | [], _ :: _, h => by simp at h
  | _ :: _, [], h => by simp at h
  | v :: t, ai :: a, h => by
    have ih := sum_zipWith_rebalance S δ t a (by simpa using h)
    simp only [List.zipWith_cons_cons, List.sum_cons, ih]
    ring

theorem sum_zipWith_diff (F : ℚ) :
    ∀ (t m : List ℚ), m.length = t.length →
      (List.zipWith (fun a v => a * F - v) t m).sum = t.sum * F - m.sum
  | [], [], _ => by simp
  | [], _ :: _, h => by simp at h
  | _ :: _, [], h => by simp at h
  | a :: t, v :: m, h => by
    have ih := sum_zipWith_diff F t m (by simpa using h)
    simp only [List.zipWith_cons_cons, List.sum_cons, ih]
    ring

/-- A list of non-negative rationals with one positive member has a
positive sum. -/
theorem sum_pos_of_mem_pos :
    ∀ (l : List ℚ), (∀ x ∈ l, 0 ≤ x) → ∀ y ∈ l, 0 < y → 0 < l.sum
  | [], _, y, hy, _ => by simp at hy
  | a :: l, h, y, hy, hypos => by
    have hl : ∀ x ∈ l, 0 ≤ x := fun x hx => h x (List.mem_cons_of_mem a hx)
    rcases List.mem_cons.mp hy with rfl | hmem
    · have : (0 : ℚ) ≤ l.sum := List.sum_nonneg hl
      simp only [List.sum_cons]; linarith
    · have ha : 0 ≤ a := h a (List.mem_cons_self a l)
      have : 0 < l.sum := sum_pos_of_mem_pos l hl y hmem hypos
      simp only [List.sum_cons]; linarith

/-- A list of non-positive rationals has a non-positive sum. -/
theorem sum_nonpos_list :
    ∀ (l : List ℚ), (∀ x ∈ l, x ≤ 0) → l.sum ≤ 0
  | [], _ => by simp
  | a :: l, h => by
    have ha : a ≤ 0 := h a (List.mem_cons_self a l)
    have hl : l.sum ≤ 0 :=
      sum_nonpos_list l fun x hx => h x (List.mem_cons_of_mem a hx)
    simp only [List.sum_cons]; linarith

/-- A list of non-positive rationals with one negative member has a
negative sum. -/
theorem sum_neg_of_mem_neg :
    ∀ (l : List ℚ), (∀ x ∈ l, x ≤ 0) → ∀ y ∈ l, y < 0 → l.sum < 0
  | [], _, y, hy, _ => by simp at hy
  | a :: l, h, y, hy, hyneg => by
    have hl : ∀ x ∈ l, x ≤ 0 := fun x hx => h x (List.mem_cons_of_mem a hx)
    rcases List.mem_cons.mp hy with rfl | hmem
    · have : l.sum ≤ 0 := sum_nonpos_list l hl
      simp only [List.sum_cons]; linarith
    · have ha : a ≤ 0 := h a (List.mem_cons_self a l)
      have : l.sum < 0 := sum_neg_of_mem_neg l hl y hmem hyneg
      simp only [List.sum_cons]; linarith

/-! ### C3 and C4: the unconstrained rebalancer -/

/-- C3: for every input to `rebalance` with equal-length allocation
vectors both summing to 1, where the current allocation is
`mags[i] / sumInitial` and `sumInitial + sumToAdd > 0`, adding each
returned adjustment to its asset's magnitude and dividing by the final
total yields exactly the target allocation at every index. -/
theorem rebalance_reaches_target (sumInitial sumToAdd : ℚ)
    (allocInitial allocTargets mags : List ℚ)
    (hlen : allocInitial.length = allocTargets.length)
    (hcur : ∀ i, i < allocTargets.length →
      allocInitial.getD i 0 = mags.getD i 0 / sumInitial)
    (hasum : allocInitial.sum = 1) (htsum : allocTargets.sum = 1)
    (hpos : 0 < sumInitial + sumToAdd) :
    ∀ r, rebalance sumInitial allocInitial allocTargets sumToAdd = Except.ok r →
      ∀ i, i < allocTargets.length →
        (mags.getD i 0 + r.getD i 0) / (sumInitial + sumToAdd)
          = allocTargets.getD i 0 := by
  intro r hr i hi
  have hS : sumInitial ≠ 0 := by
    intro hS0
    have hzero : ∀ j, j < allocInitial.length → allocInitial.getD j 0 = 0 := by
      intro j hj
      have := hcur j (hlen ▸ hj)
      simpa [hS0] using this
    have := sum_eq_zero_of_getD allocInitial hzero
    rw [hasum] at this
    exact one_ne_zero this
  have hr' : r = List.zipWith
      (fun value ai => (value - ai) * sumInitial + value * sumToAdd)
      allocTargets allocInitial := by
    rw [rebalance, if_pos hlen] at hr
    exact (Except.ok.injEq _ _ ▸ hr).symm
  have hgd : r.getD i 0 = (allocTargets.getD i 0 - allocInitial.getD i 0)
      * sumInitial + allocTargets.getD i 0 * sumToAdd := by
    rw [hr']
    exact getD_zipWith_lt _ allocTargets allocInitial i hi (hlen ▸ hi)
  have hSd : sumInitial + sumToAdd ≠ 0 := ne_of_gt hpos
  rw [hgd, hcur i hi]
  field_simp
  ring

/-- C3 witness: at `sumInitial = 2`, `allocInitial = allocTargets =
[1/2, 1/2]`, magnitudes `[1, 1]`, `sumToAdd = 2`, every hypothesis holds
and the post-adjustment allocation equals the target at every index. -/
theorem rebalance_reaches_target_witness :
    (0 : ℚ) < 2 + 2 ∧
    (∀ r, rebalance 2 [1/2, 1/2] [1/2, 1/2] 2 = Except.ok r →
      ∀ i, i < ([(1 : ℚ)/2, 1/2] : List ℚ).length →
        (([1, 1] : List ℚ).getD i 0 + r.getD i 0) / (2 + 2)
          = ([(1 : ℚ)/2, 1/2] : List ℚ).getD i 0) :=
  ⟨by norm_num,
   rebalance_reaches_target 2 2 [1/2, 1/2] [1/2, 1/2] [1, 1] rfl
     (by intro i hi
         simp only [List.length_cons, List.length_nil] at hi
         interval_cases i <;> norm_num)
     (by norm_num) (by norm_num) (by norm_num)⟩

/-- C4: for every input to `rebalance` with equal-length allocation
vectors each summing to 1, the returned adjustments sum exactly to
`sumToAdd`, for any `sumInitial` and any `sumToAdd`. -/
theorem rebalance_sum_eq_delta (sumInitial sumToAdd : ℚ)
    (allocInitial allocTargets : List ℚ)
    (hlen : allocInitial.length = allocTargets.length)
    (hasum : allocInitial.sum = 1) (htsum : allocTargets.sum = 1) :
    ∀ r, rebalance sumInitial allocInitial allocTargets sumToAdd = Except.ok r →
      r.sum = sumToAdd := by
  intro r hr
  have hr' : r = List.zipWith
      (fun value ai => (value - ai) * sumInitial + value * sumToAdd)
      allocTargets allocInitial := by
    rw [rebalance, if_pos hlen] at hr
    exact (Except.ok.injEq _ _ ▸ hr).symm
  rw [hr', sum_zipWith_rebalance sumInitial sumToAdd allocTargets allocInitial hlen,
    hasum, htsum]
  ring

/-- C4 witness: at `sumInitial = 17000`, current allocation
`[6/17, 5/17, 6/17]`, targets `[3/10, 1/2, 1/5]`, `sumToAdd = 10000`,
the hypotheses hold and the adjustments sum to 10000. -/
theorem rebalance_sum_eq_delta_witness :
    ([(6 : ℚ)/17, 5/17, 6/17] : List ℚ).sum = 1 ∧
    (∀ r, rebalance 17000 [6/17, 5/17, 6/17] [3/10, 1/2, 1/5] 10000 = Except.ok r →
      r.sum = 10000) :=
  ⟨by norm_num,
   rebalance_sum_eq_delta 17000 10000 [6/17, 5/17, 6/17] [3/10, 1/2, 1/5] rfl
     (by norm_num) (by norm_num)⟩

/-! ### C5 and C6: missing explicit failures on zero denominators -/

/-- C5: `calculateAllocation` performs no zero-total check.  On input
`[0, 0]` the total is 0 and the function still returns a full result pair
whose fraction entries are the divisions-by-zero `0 / 0` — in JS these
are `NaN` (in this exact model `x / 0 = 0`); no error is raised, contrary
to the spec's requirement of an explicit descriptive failure. -/
theorem calculateAllocation_zero_total_returns :
    kahanSum [(0 : ℚ), 0] = 0 ∧
    calculateAllocation [(0 : ℚ), 0] = (0, [0 / (0 : ℚ), 0 / (0 : ℚ)]) := by
  constructor
  · rw [kahanSum_eq_sum]; norm_num
  · norm_num [calculateAllocation, kahanSum_eq_sum]

/-- C6: on `sumsInitial = [1, 1]`, `allocTargets = [1/10, 1/10]`,
`sumToAdd = 1`, every phase-2 diff clamps to zero, the phase-3
redistribution base (the Kahan sum of the clamped diffs) is 0, and the
two-pass rebalancer still returns `Except.ok` with the entries
`0 / 0 * 1` — `NaN` in JS (0 in this exact model) — instead of failing
with a descriptive error. -/
theorem rebalanceWithoutNegativeRebalancing_degenerate_returns :
    clampedDiffs [1, 1] [1/10, 1/10] 1 = [0, 0] ∧
    kahanSum (clampedDiffs [1, 1] [1/10, 1/10] 1) = 0 ∧
    rebalanceWithoutNegativeRebalancing [1, 1] [1/10, 1/10] 1
      = Except.ok [0 / (0 : ℚ) * 1, 0 / (0 : ℚ) * 1] := by
  refine ⟨?_, ?_, ?_⟩ <;>
    norm_num [rebalanceWithoutNegativeRebalancing, clampedDiffs, diffsBeforeClamp,
      calculateAllocation, kahanSum_eq_sum]

/-! ### Structure of the two-pass constrained rebalancer -/

/-- With matching lengths and nonzero `sumToAdd`, the two-pass rebalancer
returns the clamped diffs scaled by `sumToAdd / (their Kahan sum)`. -/
theorem rebalanceWithoutNegativeRebalancing_eq_ok (sumsInitial allocTargets : List ℚ)
    (sumToAdd : ℚ) (hlen : sumsInitial.length = allocTargets.length)
    (hδ : sumToAdd ≠ 0) :
    rebalanceWithoutNegativeRebalancing sumsInitial allocTargets sumToAdd =
      Except.ok ((clampedDiffs sumsInitial allocTargets sumToAdd).map
        (fun c => c / kahanSum (clampedDiffs sumsInitial allocTargets sumToAdd)
          * sumToAdd)) := by
  rw [rebalanceWithoutNegativeRebalancing, if_pos hlen, if_neg hδ]
  simp [calculateAllocation, List.map_map, Function.comp]

theorem length_diffsBeforeClamp (sumsInitial allocTargets : List ℚ) (sumToAdd : ℚ)
    (hlen : sumsInitial.length = allocTargets.length) :
    (diffsBeforeClamp sumsInitial allocTargets sumToAdd).length
      = sumsInitial.length := by
  simp [diffsBeforeClamp, calculateAllocation, hlen]

theorem length_clampedDiffs (sumsInitial allocTargets : List ℚ) (sumToAdd : ℚ)
    (hlen : sumsInitial.length = allocTargets.length) :
    (clampedDiffs sumsInitial allocTargets sumToAdd).length
      = sumsInitial.length := by
  simp [clampedDiffs, length_diffsBeforeClamp sumsInitial allocTargets sumToAdd hlen]

/-- For positive `sumToAdd` every clamped diff is non-negative. -/
theorem clampedDiffs_nonneg (sumsInitial allocTargets : List ℚ) (sumToAdd : ℚ)
    (hpos : 0 < sumToAdd) :
    ∀ c ∈ clampedDiffs sumsInitial allocTargets sumToAdd, 0 ≤ c := by
  intro c hc
  rw [clampedDiffs] at hc
  obtain ⟨s, _, rfl⟩ := List.mem_map.mp hc
  rw [if_pos hpos]
  split
  · exact le_refl 0
  · exact le_of_not_lt (by assumption)

/-- For negative `sumToAdd` every clamped diff is non-positive. -/
theorem clampedDiffs_nonpos (sumsInitial allocTargets : List ℚ) (sumToAdd : ℚ)
    (hneg : sumToAdd < 0) :
    ∀ c ∈ clampedDiffs sumsInitial allocTargets sumToAdd, c ≤ 0 := by
  intro c hc
  rw [clampedDiffs] at hc
  obtain ⟨s, _, rfl⟩ := List.mem_map.mp hc
  rw [if_neg (not_lt.mpr hneg.le)]
  split
  · exact le_refl 0
  · exact le_of_not_lt (by assumption)

/-- A diff that agrees in sign with `sumToAdd` survives the clamp. -/
theorem mem_clampedDiffs_of_sign (sumsInitial allocTargets : List ℚ)
    (sumToAdd x : ℚ)
    (hx : x ∈ diffsBeforeClamp sumsInitial allocTargets sumToAdd)
    (hcase : (0 < sumToAdd ∧ 0 < x) ∨ (sumToAdd < 0 ∧ x < 0)) :
    x ∈ clampedDiffs sumsInitial allocTargets sumToAdd := by
  rw [clampedDiffs]
  refine List.mem_map.mpr ⟨x, hx, ?_⟩
  rcases hcase with ⟨hpos, hxpos⟩ | ⟨hneg, hxneg⟩
  · rw [if_pos hpos, if_neg (not_lt.mpr hxpos.le)]
  · rw [if_neg (not_lt.mpr hneg.le), if_neg (not_lt.mpr hxneg.le)]

/-- The Kahan sum of the clamped diffs is positive when `sumToAdd` is
positive and some diff agrees in sign, negative when `sumToAdd` is
negative and some diff agrees in sign. -/
theorem kahanSum_clampedDiffs_sign (sumsInitial allocTargets : List ℚ)
    (sumToAdd x : ℚ)
    (hx : x ∈ diffsBeforeClamp sumsInitial allocTargets sumToAdd)
    (hcase : (0 < sumToAdd ∧ 0 < x) ∨ (sumToAdd < 0 ∧ x < 0)) :
    (0 < sumToAdd ∧ 0 < kahanSum (clampedDiffs sumsInitial allocTargets sumToAdd))
    ∨ (sumToAdd < 0 ∧
        kahanSum (clampedDiffs sumsInitial allocTargets sumToAdd) < 0) := by
  have hmem := mem_clampedDiffs_of_sign sumsInitial allocTargets sumToAdd x hx hcase
  rw [kahanSum_eq_sum]
  rcases hcase with ⟨hpos, hxpos⟩ | ⟨hneg, hxneg⟩
  · exact Or.inl ⟨hpos, sum_pos_of_mem_pos _
      (clampedDiffs_nonneg sumsInitial allocTargets sumToAdd hpos) x hmem hxpos⟩
  · exact Or.inr ⟨hneg, sum_neg_of_mem_neg _
      (clampedDiffs_nonpos sumsInitial allocTargets sumToAdd hneg) x hmem hxneg⟩

theorem sum_map_div_mul (l : List ℚ) (T δ : ℚ) :
    (l.map (fun c => c / T * δ)).sum = l.sum / T * δ := by
  induction l with
  | nil => simp
  | cons a l ih => simp [ih, add_div, add_mul]

/-! ### C1: sign correctness of the constrained rebalancer -/

/-- C1: on equal-length inputs with non-negative magnitudes of positive
total, targets in `[0, 1]` summing to 1, and (when `sumToAdd ≠ 0`) at
least one unconstrained diff agreeing in sign with `sumToAdd`: a positive
`sumToAdd` yields only non-negative adjustments, a negative one only
non-positive adjustments, and a zero one the all-zero vector. -/
theorem rebalanceWithoutNegativeRebalancing_sign (sumsInitial allocTargets : List ℚ)
    (sumToAdd : ℚ)
    (hlen : sumsInitial.length = allocTargets.length)
    (hm : ∀ x ∈ sumsInitial, 0 ≤ x)
    (hS : 0 < kahanSum sumsInitial)
    (ht : ∀ x ∈ allocTargets, 0 ≤ x ∧ x ≤ 1)
    (htsum : allocTargets.sum = 1)
    (hsign : sumToAdd ≠ 0 →
      ∃ x ∈ diffsBeforeClamp sumsInitial allocTargets sumToAdd,
        (0 < sumToAdd ∧ 0 < x) ∨ (sumToAdd < 0 ∧ x < 0)) :
    ∀ r, rebalanceWithoutNegativeRebalancing sumsInitial allocTargets sumToAdd
        = Except.ok r →
      (0 < sumToAdd → ∀ y ∈ r, 0 ≤ y) ∧
      (sumToAdd < 0 → ∀ y ∈ r, y ≤ 0) ∧
      (sumToAdd = 0 → r = List.replicate sumsInitial.length 0) := by
  intro r hr
  by_cases hδ : sumToAdd = 0
  · subst hδ
    rw [rebalanceWithoutNegativeRebalancing, if_pos hlen, if_pos rfl] at hr
    refine ⟨fun h0 => absurd h0 (lt_irrefl 0), fun h0 => absurd h0 (lt_irrefl 0),
      fun _ => ?_⟩
    exact ((Except.ok.injEq _ _ ▸ hr)).symm
  · rw [rebalanceWithoutNegativeRebalancing_eq_ok sumsInitial allocTargets
      sumToAdd hlen hδ] at hr
    obtain ⟨x, hx, hcase⟩ := hsign hδ
    have hT := kahanSum_clampedDiffs_sign sumsInitial allocTargets sumToAdd x hx hcase
    have hr' : r = (clampedDiffs sumsInitial allocTargets sumToAdd).map
        (fun c => c / kahanSum (clampedDiffs sumsInitial allocTargets sumToAdd)
          * sumToAdd) := ((Except.ok.injEq _ _ ▸ hr)).symm
    refine ⟨?_, ?_, fun h0 => absurd h0 hδ⟩
    · intro hpos y hy
      rw [hr'] at hy
      obtain ⟨c, hc, rfl⟩ := List.mem_map.mp hy
      have hc0 := clampedDiffs_nonneg sumsInitial allocTargets sumToAdd hpos c hc
      rcases hT with ⟨_, hTpos⟩ | ⟨hneg, _⟩
      · exact mul_nonneg (div_nonneg hc0 hTpos.le) hpos.le
      · exact absurd hpos (not_lt.mpr hneg.le)
    · intro hneg y hy
      rw [hr'] at hy
      obtain ⟨c, hc, rfl⟩ := List.mem_map.mp hy
      have hc0 := clampedDiffs_nonpos sumsInitial allocTargets sumToAdd hneg c hc
      rcases hT with ⟨hpos, _⟩ | ⟨_, hTneg⟩
      · exact absurd hpos (not_lt.mpr hneg.le)
      · exact mul_nonpos_of_nonneg_of_nonpos
          (div_nonneg_iff.mpr (Or.inr ⟨hc0, hTneg.le⟩)) hneg.le

/-- C1 witness: magnitudes `[9/2, 24/5, 107/10]`, targets
`[1/2, 1/5, 3/10]`, `sumToAdd = 9 > 0`: the hypotheses hold and every
returned adjustment is non-negative. -/
theorem rebalanceWithoutNegativeRebalancing_sign_witness :
    (0 : ℚ) < 9 ∧
    (∀ r, rebalanceWithoutNegativeRebalancing [9/2, 24/5, 107/10]
        [1/2, 1/5, 3/10] 9 = Except.ok r → ∀ y ∈ r, 0 ≤ y) :=
  ⟨by norm_num,
   fun r hr =>
     (rebalanceWithoutNegativeRebalancing_sign [9/2, 24/5, 107/10]
       [1/2, 1/5, 3/10] 9 rfl
       (by intro x hx
           simp only [List.mem_cons, List.not_mem_nil, or_false] at hx
           rcases hx with rfl | rfl | rfl <;> norm_num)
       (by rw [kahanSum_eq_sum]; norm_num)
       (by intro x hx
           simp only [List.mem_cons, List.not_mem_nil, or_false] at hx
           rcases hx with rfl | rfl | rfl <;> norm_num)
       (by norm_num)
       (fun _ => ⟨10, by
         norm_num [diffsBeforeClamp, calculateAllocation, kahanSum_eq_sum]⟩)
       r hr).1 (by norm_num)⟩

/-- Pointwise-equal functions give equal `zipWith` results. -/
theorem zipWith_congr_fun (f g : ℚ → ℚ → ℚ) (h : ∀ a b, f a b = g a b)
    (l₁ l₂ : List ℚ) : List.zipWith f l₁ l₂ = List.zipWith g l₁ l₂ := by
  have hfg : f = g := funext fun a => funext fun b => h a b
  rw [hfg]

theorem zipWith_ignore_left (g : ℚ → ℚ) :
    ∀ (t m : List ℚ), m.length = t.length →
      List.zipWith (fun _ v => g v) t m = m.map g
  | [], [], _ => rfl
  | [], _ :: _, h => by simp at h
  | _ :: _, [], _ => by simp
  | a :: t, v :: m, h => by
    simp only [List.zipWith_cons_cons, List.map_cons]
    rw [zipWith_ignore_left g t m (by simpa using h)]

theorem zipWith_over_map_right (f : ℚ → ℚ → ℚ) (g : ℚ → ℚ) :
    ∀ (t m : List ℚ),
      List.zipWith f t (m.map g) = List.zipWith (fun a v => f a (g v)) t m
  | [], _ => by simp
  | _ :: _, [] => by simp
  | a :: t, v :: m => by
    simp only [List.map_cons, List.zipWith_cons_cons]
    rw [zipWith_over_map_right f g t m]

theorem sum_map_neg_list : ∀ l : List ℚ, (l.map (fun v => -v)).sum = -l.sum
  | [] => by simp
  | a :: l => by simp [sum_map_neg_list l]; ring

/-- When the magnitudes' total is nonzero, the unclamped diffs take the
closed form `target[i] * (total + sumToAdd) - sumsInitial[i]`. -/
theorem diffsBeforeClamp_eq (sumsInitial allocTargets : List ℚ) (sumToAdd : ℚ)
    (hS : kahanSum sumsInitial ≠ 0) :
    diffsBeforeClamp sumsInitial allocTargets sumToAdd =
      List.zipWith (fun a v => a * (kahanSum sumsInitial + sumToAdd) - v)
        allocTargets sumsInitial := by
  rw [diffsBeforeClamp]
  simp only [calculateAllocation]
  rw [zipWith_over_map_right]
  exact zipWith_congr_fun _ _
    (fun a v => by rw [div_mul_cancel₀ v hS]) allocTargets sumsInitial

theorem clampedDiffs_eq_of_pos (sumsInitial allocTargets : List ℚ)
    (sumToAdd : ℚ) (hpos : 0 < sumToAdd) :
    clampedDiffs sumsInitial allocTargets sumToAdd =
      (diffsBeforeClamp sumsInitial allocTargets sumToAdd).map
        (fun s => if s < 0 then 0 else s) := by
  rw [clampedDiffs]
  congr 1
  funext s
  rw [if_pos hpos]

theorem clampedDiffs_eq_of_neg (sumsInitial allocTargets : List ℚ)
    (sumToAdd : ℚ) (hneg : sumToAdd < 0) :
    clampedDiffs sumsInitial allocTargets sumToAdd =
      (diffsBeforeClamp sumsInitial allocTargets sumToAdd).map
        (fun s => if 0 < s then 0 else s) := by
  rw [clampedDiffs]
  congr 1
  funext s
  rw [if_neg (not_lt.mpr hneg.le)]

/-! ### C2: the constrained rebalancer's output sums to `sumToAdd` -/

/-- C2: on equal-length inputs with non-negative magnitudes of positive
total, targets summing to 1, and (when `sumToAdd ≠ 0`) at least one
unconstrained diff agreeing in sign with `sumToAdd`, the returned
adjustments sum exactly to `sumToAdd`. -/
theorem rebalanceWithoutNegativeRebalancing_sum (sumsInitial allocTargets : List ℚ)
    (sumToAdd : ℚ)
    (hlen : sumsInitial.length = allocTargets.length)
    (hm : ∀ x ∈ sumsInitial, 0 ≤ x)
    (hS : 0 < kahanSum sumsInitial)
    (htsum : allocTargets.sum = 1)
    (hsign : sumToAdd ≠ 0 →
      ∃ x ∈ diffsBeforeClamp sumsInitial allocTargets sumToAdd,
        (0 < sumToAdd ∧ 0 < x) ∨ (sumToAdd < 0 ∧ x < 0)) :
    ∀ r, rebalanceWithoutNegativeRebalancing sumsInitial allocTargets sumToAdd
        = Except.ok r → r.sum = sumToAdd := by
  intro r hr
  by_cases hδ : sumToAdd = 0
  · subst hδ
    rw [rebalanceWithoutNegativeRebalancing, if_pos hlen, if_pos rfl] at hr
    injection hr with hreq
    rw [← hreq]
    simp
  · rw [rebalanceWithoutNegativeRebalancing_eq_ok sumsInitial allocTargets
      sumToAdd hlen hδ] at hr
    obtain ⟨x, hx, hcase⟩ := hsign hδ
    have hT := kahanSum_clampedDiffs_sign sumsInitial allocTargets sumToAdd x hx hcase
    have hTne : kahanSum (clampedDiffs sumsInitial allocTargets sumToAdd) ≠ 0 := by
      rcases hT with ⟨_, h⟩ | ⟨_, h⟩
      · exact ne_of_gt h
      · exact ne_of_lt h
    injection hr with hreq
    rw [← hreq, sum_map_div_mul, kahanSum_eq_sum]
    rw [kahanSum_eq_sum] at hTne
    rw [div_self hTne, one_mul]

/-- C2 witness: magnitudes `[9/2, 24/5, 107/10]`, targets
`[1/2, 1/5, 3/10]`, `sumToAdd = 9`: the adjustments sum to 9. -/
theorem rebalanceWithoutNegativeRebalancing_sum_witness :
    (0 : ℚ) < kahanSum [9/2, 24/5, 107/10] ∧
    (∀ r, rebalanceWithoutNegativeRebalancing [9/2, 24/5, 107/10]
        [1/2, 1/5, 3/10] 9 = Except.ok r → r.sum = 9) :=
  ⟨by rw [kahanSum_eq_sum]; norm_num,
   rebalanceWithoutNegativeRebalancing_sum [9/2, 24/5, 107/10]
     [1/2, 1/5, 3/10] 9 rfl
     (by intro x hx
         simp only [List.mem_cons, List.not_mem_nil, or_false] at hx
         rcases hx with rfl | rfl | rfl <;> norm_num)
     (by rw [kahanSum_eq_sum]; norm_num)
     (by norm_num)
     (fun _ => ⟨10, by
       norm_num [diffsBeforeClamp, calculateAllocation, kahanSum_eq_sum]⟩)⟩

/-! ### C7: full liquidation -/

/-- C7: with equal-length vectors, non-negative magnitudes of positive
total `T = kahanSum sumsInitial`, and targets in `[0, 1]` summing to 1,
calling the constrained rebalancer with `sumToAdd = -T` returns exactly
`-sumsInitial[i]` at every index. -/
theorem rebalanceWithoutNegativeRebalancing_liquidation
    (sumsInitial allocTargets : List ℚ)
    (hlen : sumsInitial.length = allocTargets.length)
    (hm : ∀ x ∈ sumsInitial, 0 ≤ x)
    (hS : 0 < kahanSum sumsInitial)
    (ht : ∀ x ∈ allocTargets, 0 ≤ x ∧ x ≤ 1)
    (htsum : allocTargets.sum = 1) :
    ∀ r, rebalanceWithoutNegativeRebalancing sumsInitial allocTargets
        (-(kahanSum sumsInitial)) = Except.ok r →
      ∀ i, i < sumsInitial.length → r.getD i 0 = -(sumsInitial.getD i 0) := by
  intro r hr i hi
  have hSne : kahanSum sumsInitial ≠ 0 := ne_of_gt hS
  have hδneg : -(kahanSum sumsInitial) < 0 := neg_neg_of_pos hS
  have hδ : -(kahanSum sumsInitial) ≠ 0 := ne_of_lt hδneg
  have hdiffs : diffsBeforeClamp sumsInitial allocTargets (-(kahanSum sumsInitial))
      = sumsInitial.map (fun v => -v) := by
    rw [diffsBeforeClamp_eq sumsInitial allocTargets _ hSne]
    rw [zipWith_congr_fun _ (fun _ v => -v) (fun a v => by ring) allocTargets
      sumsInitial]
    exact zipWith_ignore_left _ allocTargets sumsInitial hlen
  have hclamped : clampedDiffs sumsInitial allocTargets (-(kahanSum sumsInitial))
      = sumsInitial.map (fun v => -v) := by
    rw [clampedDiffs_eq_of_neg _ _ _ hδneg, hdiffs, List.map_map]
    refine List.map_congr_left ?_
    intro v hv
    have h0 : 0 ≤ v := hm v hv
    simp only [Function.comp_apply]
    rw [if_neg (by simpa using h0)]
  have hT : kahanSum (clampedDiffs sumsInitial allocTargets
      (-(kahanSum sumsInitial))) = -(kahanSum sumsInitial) := by
    rw [hclamped, kahanSum_eq_sum, sum_map_neg_list, kahanSum_eq_sum]
  rw [rebalanceWithoutNegativeRebalancing_eq_ok sumsInitial allocTargets _ hlen hδ]
    at hr
  injection hr with hreq
  rw [← hreq, hT, hclamped, List.map_map]
  have hlen2 : i < sumsInitial.length := hi
  rw [getD_map_lt _ sumsInitial i hlen2]
  simp only [Function.comp_apply]
  rw [div_mul_cancel₀ _ (neg_ne_zero.mpr hSne)]

/-- C7 witness: magnitudes `[1, 3]`, targets `[1/2, 1/2]`, liquidating
`sumToAdd = -4` returns `[-1, -3]` entrywise. -/
theorem rebalanceWithoutNegativeRebalancing_liquidation_witness :
    (0 : ℚ) < kahanSum [1, 3] ∧
    (∀ r, rebalanceWithoutNegativeRebalancing [1, 3] [1/2, 1/2]
        (-(kahanSum [1, 3])) = Except.ok r →
      ∀ i, i < ([1, 3] : List ℚ).length →
        r.getD i 0 = -(([1, 3] : List ℚ).getD i 0)) :=
  ⟨by rw [kahanSum_eq_sum]; norm_num,
   rebalanceWithoutNegativeRebalancing_liquidation [1, 3] [1/2, 1/2] rfl
     (by intro x hx
         simp only [List.mem_cons, List.not_mem_nil, or_false] at hx
         rcases hx with rfl | rfl <;> norm_num)
     (by rw [kahanSum_eq_sum]; norm_num)
     (by intro x hx
         simp only [List.mem_cons, List.not_mem_nil, or_false] at hx
         rcases hx with rfl | rfl <;> norm_num)
     (by norm_num)⟩

/-! ### C10: clamped assets receive exactly zero -/

/-- C10: on valid non-degenerate inputs (nonzero `sumToAdd`, at least one
diff agreeing in sign with it), every asset whose unconstrained diff has
sign strictly opposite to `sumToAdd` receives an adjustment of exactly 0. -/
theorem rebalanceWithoutNegativeRebalancing_clamped_zero
    (sumsInitial allocTargets : List ℚ) (sumToAdd : ℚ)
    (hlen : sumsInitial.length = allocTargets.length)
    (hm : ∀ x ∈ sumsInitial, 0 ≤ x)
    (hS : 0 < kahanSum sumsInitial)
    (htsum : allocTargets.sum = 1)
    (hδ : sumToAdd ≠ 0)
    (hsign : ∃ x ∈ diffsBeforeClamp sumsInitial allocTargets sumToAdd,
      (0 < sumToAdd ∧ 0 < x) ∨ (sumToAdd < 0 ∧ x < 0)) :
    ∀ r, rebalanceWithoutNegativeRebalancing sumsInitial allocTargets sumToAdd
        = Except.ok r →
      ∀ i, i < sumsInitial.length →
        ((0 < sumToAdd ∧
            (diffsBeforeClamp sumsInitial allocTargets sumToAdd).getD i 0 < 0) ∨
         (sumToAdd < 0 ∧
            0 < (diffsBeforeClamp sumsInitial allocTargets sumToAdd).getD i 0)) →
        r.getD i 0 = 0 := by
  intro r hr i hi hcase
  rw [rebalanceWithoutNegativeRebalancing_eq_ok sumsInitial allocTargets
    sumToAdd hlen hδ] at hr
  injection hr with hreq
  have hlc : i < (clampedDiffs sumsInitial allocTargets sumToAdd).length := by
    rw [length_clampedDiffs sumsInitial allocTargets sumToAdd hlen]; exact hi
  have hld : i < (diffsBeforeClamp sumsInitial allocTargets sumToAdd).length := by
    rw [length_diffsBeforeClamp sumsInitial allocTargets sumToAdd hlen]; exact hi
  rw [← hreq, getD_map_lt _ _ i hlc]
  have hcl : (clampedDiffs sumsInitial allocTargets sumToAdd).getD i 0 = 0 := by
    rw [clampedDiffs, getD_map_lt _ _ i hld]
    rcases hcase with ⟨hpos, hneg⟩ | ⟨hneg, hpos⟩
    · rw [if_pos hpos, if_pos hneg]
    · rw [if_neg (not_lt.mpr hneg.le), if_pos hpos]
  rw [hcl, zero_div, zero_mul]

/-- C10 witness: magnitudes `[9/2, 24/5, 107/10]`, targets
`[1/2, 1/5, 3/10]`, `sumToAdd = 9`: asset 2 has diff `-2 < 0` and
receives adjustment exactly 0. -/
theorem rebalanceWithoutNegativeRebalancing_clamped_zero_witness :
    (diffsBeforeClamp [9/2, 24/5, 107/10] [1/2, 1/5, 3/10] 9).getD 2 0 < 0 ∧
    (∀ r, rebalanceWithoutNegativeRebalancing [9/2, 24/5, 107/10]
        [1/2, 1/5, 3/10] 9 = Except.ok r → r.getD 2 0 = 0) :=
  ⟨by norm_num [diffsBeforeClamp, calculateAllocation, kahanSum_eq_sum],
   fun r hr =>
     rebalanceWithoutNegativeRebalancing_clamped_zero [9/2, 24/5, 107/10]
       [1/2, 1/5, 3/10] 9 rfl
       (by intro x hx
           simp only [List.mem_cons, List.not_mem_nil, or_false] at hx
           rcases hx with rfl | rfl | rfl <;> norm_num)
       (by rw [kahanSum_eq_sum]; norm_num)
       (by norm_num)
       (by norm_num)
       ⟨10, by norm_num [diffsBeforeClamp, calculateAllocation, kahanSum_eq_sum]⟩
       r hr 2 (by norm_num)
       (Or.inl ⟨by norm_num,
         by norm_num [diffsBeforeClamp, calculateAllocation, kahanSum_eq_sum]⟩)⟩

/-! ### C9: termination of the iterative redistribution loop -/

theorem getD_set_zero : ∀ (l : List ℚ) (i : Nat), (l.set i 0).getD i 0 = 0
  | [], _ => by simp
  | _ :: _, 0 => by simp
  | _ :: l, i + 1 => by simpa using getD_set_zero l i

/-- Each `passStep` either strictly shrinks the active set or leaves it
unchanged while charging exactly one share to `remaining`. -/
theorem passStep_cases (i : Nat) (share : ℚ) (st : RedistState)
    (hi : i ∈ st.active) :
    (passStep i share st).active.length < st.active.length ∨
    ((passStep i share st).active = st.active ∧
      (passStep i share st).remaining = st.remaining - share) := by
  have herase : (st.active.erase i).length < st.active.length := by
    rw [List.length_erase_of_mem hi]
    have : 0 < st.active.length := List.length_pos.mpr (List.ne_nil_of_mem hi)
    omega
  rw [passStep]
  by_cases h1 : 0 ≤ st.sumDivided.getD i 0 + share
  · rw [if_pos h1]
    by_cases h2 : (st.sumDivided.set i (st.sumDivided.getD i 0 + share)).getD i 0 ≤ 0
    · rw [if_pos h2]
      exact Or.inl herase
    · rw [if_neg h2]
      exact Or.inr ⟨rfl, rfl⟩
  · rw [if_neg h1]
    rw [if_pos (by rw [getD_set_zero])]
    exact Or.inl herase

theorem passStep_active_length_le (i : Nat) (share : ℚ) (st : RedistState) :
    (passStep i share st).active.length ≤ st.active.length := by
  have herase : (st.active.erase i).length ≤ st.active.length :=
    (List.erase_sublist i st.active).length_le
  rw [passStep]
  by_cases h1 : 0 ≤ st.sumDivided.getD i 0 + share
  · rw [if_pos h1]
    by_cases h2 : (st.sumDivided.set i (st.sumDivided.getD i 0 + share)).getD i 0 ≤ 0
    · rw [if_pos h2]; exact herase
    · rw [if_neg h2]
  · rw [if_neg h1]
    rw [if_pos (by rw [getD_set_zero])]
    exact herase

theorem passRun_active_length_le :
    ∀ (todo : List Nat) (share : ℚ) (st : RedistState),
      (passRun todo share st).active.length ≤ st.active.length
  | [], _, _ => le_refl _
  | i :: rest, share, st => by
    simp only [passRun]
    split
    · exact passStep_active_length_le i share st
    · exact le_trans (passRun_active_length_le rest share (passStep i share st))
        (passStep_active_length_le i share st)

/-- The progress dichotomy for one full pass: either the pass reached a
non-negative `remaining`, or it strictly shrank the active set, or it
charged every processed index exactly one share. -/
theorem passRun_progress :
    ∀ (todo : List Nat) (share : ℚ) (st : RedistState),
      (∀ j ∈ todo, j ∈ st.active) →
      0 ≤ (passRun todo share st).remaining ∨
      (passRun todo share st).active.length < st.active.length ∨
      (passRun todo share st).remaining
        = st.remaining - (todo.length : ℚ) * share
  | [], share, st, _ => Or.inr (Or.inr (by simp [passRun]))
  | i :: rest, share, st, hsub => by
    simp only [passRun]
    by_cases hbreak : 0 ≤ (passStep i share st).remaining
    · rw [if_pos hbreak]
      exact Or.inl hbreak
    · rw [if_neg hbreak]
      have hi : i ∈ st.active := hsub i (List.mem_cons_self i rest)
      rcases passStep_cases i share st hi with hlt | ⟨hact, hrem⟩
      · exact Or.inr (Or.inl (lt_of_le_of_lt
          (passRun_active_length_le rest share (passStep i share st)) hlt))
      · have hsub2 : ∀ j ∈ rest, j ∈ (passStep i share st).active := by
          intro j hj
          rw [hact]
          exact hsub j (List.mem_cons_of_mem i hj)
        rcases passRun_progress rest share (passStep i share st) hsub2
          with h | h | h
        · exact Or.inl h
        · exact Or.inr (Or.inl (by rw [hact] at h; exact h))
        · refine Or.inr (Or.inr ?_)
          rw [h, hrem]
          push_cast [List.length_cons]
          ring

/-- A state already satisfying the `while` exit condition is a fixed
point of `redistLoop` for any fuel. -/
theorem redistLoop_of_terminal (f : Nat) (st : RedistState)
    (h : ¬(st.remaining < 0 ∧ st.active ≠ [])) : redistLoop f st = st := by
  cases f with
  | zero => rfl
  | succ n => simp only [redistLoop, if_neg h]

/-- With fuel exceeding the size of the active set, `redistLoop` reaches
a state satisfying the `while` exit condition: each pass either makes
`remaining` non-negative (in particular a full pass with no removals
drives it exactly to 0) or removes at least one active index. -/
theorem redistLoop_terminates :
    ∀ (f : Nat) (st : RedistState), st.active.length < f →
      ¬((redistLoop f st).remaining < 0 ∧ (redistLoop f st).active ≠ [])
  | 0, st, h => absurd h (Nat.not_lt_zero _)
  | f + 1, st, h => by
    by_cases hguard : st.remaining < 0 ∧ st.active ≠ []
    · simp only [redistLoop, if_pos hguard]
      have hlen0 : (st.active.length : ℚ) ≠ 0 := by
        have hne : st.active.length ≠ 0 := by
          intro h0
          exact hguard.2 (List.length_eq_zero.mp h0)
        exact_mod_cast hne
      rcases passRun_progress st.active
        (st.remaining / (st.active.length : ℚ)) st (fun j hj => hj)
        with hpos | hlt | heq
      · rw [redistLoop_of_terminal f _ (fun hc => absurd hpos (not_le.mpr hc.1))]
        exact fun hc => absurd hpos (not_le.mpr hc.1)
      · exact redistLoop_terminates f _ (lt_of_lt_of_le hlt (Nat.lt_succ_iff.mp h))
      · have hz : (passRun st.active (st.remaining / (st.active.length : ℚ))
            st).remaining = 0 := by
          rw [heq, mul_div_cancel₀ st.remaining hlen0, sub_self]
        rw [redistLoop_of_terminal f _
          (fun hc => absurd hc.1 (by rw [hz]; exact lt_irrefl 0))]
        exact fun hc => absurd hc.1 (by rw [hz]; exact lt_irrefl 0)
    · simp only [redistLoop, if_neg hguard]
      exact hguard

/-- Splitting fuel: running `a + b` steps is running `a` then `b`. -/
theorem redistLoop_add :
    ∀ (a b : Nat) (st : RedistState),
      redistLoop (a + b) st = redistLoop b (redistLoop a st)
  | 0, b, st => by rw [Nat.zero_add]; rfl
  | a + 1, b, st => by
    by_cases hguard : st.remaining < 0 ∧ st.active ≠ []
    · have hshift : a + 1 + b = (a + b) + 1 := by omega
      rw [hshift]
      simp only [redistLoop, if_pos hguard]
      exact redistLoop_add a b _
    · rw [redistLoop_of_terminal (a + 1 + b) st hguard,
        redistLoop_of_terminal (a + 1) st hguard,
        redistLoop_of_terminal b st hguard]

/-- C9: for every input with equal-length allocation vectors, the
iterative rebalancer's redistribution loop terminates: after at most
`active.length + 1` passes the `while` exit condition holds, and running
with any additional fuel changes nothing (the loop has reached its exit
state). -/
theorem redistLoop_termination_from_start (sumInitial : ℚ)
    (allocInitial allocTargets : List ℚ) (sumToAdd : ℚ)
    (hlen : allocInitial.length = allocTargets.length) :
    ¬((redistLoop
        ((initialRedistState sumInitial allocInitial allocTargets sumToAdd).active.length + 1)
        (initialRedistState sumInitial allocInitial allocTargets sumToAdd)).remaining < 0 ∧
      (redistLoop
        ((initialRedistState sumInitial allocInitial allocTargets sumToAdd).active.length + 1)
        (initialRedistState sumInitial allocInitial allocTargets sumToAdd)).active ≠ []) ∧
    ∀ k, redistLoop
        ((initialRedistState sumInitial allocInitial allocTargets sumToAdd).active.length + 1 + k)
        (initialRedistState sumInitial allocInitial allocTargets sumToAdd)
      = redistLoop
        ((initialRedistState sumInitial allocInitial allocTargets sumToAdd).active.length + 1)
        (initialRedistState sumInitial allocInitial allocTargets sumToAdd) := by
  constructor
  · exact redistLoop_terminates _ _ (Nat.lt_succ_self _)
  · intro k
    rw [redistLoop_add _ k _]
    exact redistLoop_of_terminal k _
      (redistLoop_terminates _ _ (Nat.lt_succ_self _))

/-- C9 witness: on the concrete input `sumInitial = 20`, allocations
`[9/40, 6/25, 107/200]`, targets `[1/2, 1/5, 3/10]`, `sumToAdd = 9`
(whose phase A collects negative mass `-2`), the loop reaches its exit
condition within the stated fuel. -/
theorem redistLoop_termination_from_start_witness :
    ([9/40, 6/25, 107/200] : List ℚ).length = ([1/2, 1/5, 3/10] : List ℚ).length ∧
    ¬((redistLoop
        ((initialRedistState 20 [9/40, 6/25, 107/200] [1/2, 1/5, 3/10] 9).active.length + 1)
        (initialRedistState 20 [9/40, 6/25, 107/200] [1/2, 1/5, 3/10] 9)).remaining < 0 ∧
      (redistLoop
        ((initialRedistState 20 [9/40, 6/25, 107/200] [1/2, 1/5, 3/10] 9).active.length + 1)
        (initialRedistState 20 [9/40, 6/25, 107/200] [1/2, 1/5, 3/10] 9)).active ≠ []) :=
  ⟨rfl,
   (redistLoop_termination_from_start 20 [9/40, 6/25, 107/200]
     [1/2, 1/5, 3/10] 9 rfl).1⟩

/-! ### C8: iterative versus two-pass constrained rebalancer -/

/-- On the common input (the iterative variant fed the total and
allocation computed from the magnitudes), phase A's subdivisions coincide
with the two-pass unclamped diffs. -/
theorem iterDiffs_eq_diffsBeforeClamp (sumsInitial allocTargets : List ℚ)
    (sumToAdd : ℚ) (hS : kahanSum sumsInitial ≠ 0) :
    iterDiffs (kahanSum sumsInitial) (calculateAllocation sumsInitial).2
        allocTargets sumToAdd
      = diffsBeforeClamp sumsInitial allocTargets sumToAdd := by
  rw [iterDiffs, diffsBeforeClamp_eq sumsInitial allocTargets sumToAdd hS]
  simp only [calculateAllocation]
  rw [zipWith_over_map_right]
  refine zipWith_congr_fun _ _ (fun a v => ?_) allocTargets sumsInitial
  field_simp
  ring

/-- C8, amended: the iterative work-queue rebalancer and the two-pass
clamp-then-proportionally-reallocate rebalancer compute equal adjustment
vectors on every common valid input in which no unconstrained diff is
negative (so no clamped mass has to be redistributed); the counterexample
below shows they genuinely differ once clamping occurs. -/
theorem iterative_eq_twopass_of_nonneg_diffs
    (sumsInitial allocTargets : List ℚ) (sumToAdd : ℚ)
    (hlen : sumsInitial.length = allocTargets.length)
    (hm : ∀ x ∈ sumsInitial, 0 ≤ x)
    (hS : 0 < kahanSum sumsInitial)
    (htsum : allocTargets.sum = 1)
    (hδ : 0 < sumToAdd)
    (hpos : ∃ x ∈ diffsBeforeClamp sumsInitial allocTargets sumToAdd, 0 < x)
    (hall : ∀ x ∈ diffsBeforeClamp sumsInitial allocTargets sumToAdd, 0 ≤ x) :
    Except.ok (rebalanceWithoutNegativeRebalancingIterative
        (kahanSum sumsInitial) (calculateAllocation sumsInitial).2
        allocTargets sumToAdd)
      = rebalanceWithoutNegativeRebalancing sumsInitial allocTargets sumToAdd := by
  have hSne : kahanSum sumsInitial ≠ 0 := ne_of_gt hS
  have hδne : sumToAdd ≠ 0 := ne_of_gt hδ
  have hdiff := iterDiffs_eq_diffsBeforeClamp sumsInitial allocTargets sumToAdd hSne
  have hrem : ((diffsBeforeClamp sumsInitial allocTargets sumToAdd).filter
      (fun s => s ≤ 0)).sum = 0 := by
    refine List.sum_eq_zero (fun x hx => ?_)
    have hx' := List.mem_filter.mp hx
    have hle : x ≤ 0 := by simpa using hx'.2
    exact le_antisymm hle (hall x hx'.1)
  have hsumdiv : (diffsBeforeClamp sumsInitial allocTargets sumToAdd).map
      (fun s => if s ≤ 0 then 0 else s)
      = diffsBeforeClamp sumsInitial allocTargets sumToAdd := by
    have hcongr : (diffsBeforeClamp sumsInitial allocTargets sumToAdd).map
        (fun s => if s ≤ 0 then 0 else s)
        = (diffsBeforeClamp sumsInitial allocTargets sumToAdd).map id := by
      refine List.map_congr_left (fun s hs => ?_)
      have h0 := hall s hs
      by_cases h : s ≤ 0
      · rw [if_pos h]
        exact (le_antisymm h h0).symm
      · rw [if_neg h]
        rfl
    rw [hcongr, List.map_id]
  have hiter : rebalanceWithoutNegativeRebalancingIterative
      (kahanSum sumsInitial) (calculateAllocation sumsInitial).2
      allocTargets sumToAdd
      = diffsBeforeClamp sumsInitial allocTargets sumToAdd := by
    rw [rebalanceWithoutNegativeRebalancingIterative, initialRedistState]
    simp only [hdiff, hrem]
    rw [if_neg (lt_irrefl 0)]
    exact hsumdiv
  have hcl : clampedDiffs sumsInitial allocTargets sumToAdd
      = diffsBeforeClamp sumsInitial allocTargets sumToAdd := by
    rw [clampedDiffs_eq_of_pos sumsInitial allocTargets sumToAdd hδ]
    have hcongr : (diffsBeforeClamp sumsInitial allocTargets sumToAdd).map
        (fun s => if s < 0 then 0 else s)
        = (diffsBeforeClamp sumsInitial allocTargets sumToAdd).map id := by
      refine List.map_congr_left (fun s hs => ?_)
      rw [if_neg (not_lt.mpr (hall s hs))]
      rfl
    rw [hcongr, List.map_id]
  have hT : kahanSum (diffsBeforeClamp sumsInitial allocTargets sumToAdd)
      = sumToAdd := by
    rw [kahanSum_eq_sum, diffsBeforeClamp_eq sumsInitial allocTargets sumToAdd hSne,
      sum_zipWith_diff _ allocTargets sumsInitial hlen, htsum,
      ← kahanSum_eq_sum]
    ring
  rw [rebalanceWithoutNegativeRebalancing_eq_ok sumsInitial allocTargets
    sumToAdd hlen hδne, hcl, hT, hiter]
  have hscale : (diffsBeforeClamp sumsInitial allocTargets sumToAdd).map
      (fun c => c / sumToAdd * sumToAdd)
      = (diffsBeforeClamp sumsInitial allocTargets sumToAdd).map id := by
    refine List.map_congr_left (fun c _ => ?_)
    exact div_mul_cancel₀ c hδne
  rw [hscale, List.map_id]

/-- C8 amended witness: magnitudes `[1, 1]`, targets `[1/2, 1/2]`,
`sumToAdd = 2`: all diffs are `1 ≥ 0` and both rebalancers return
`[1, 1]`. -/
theorem iterative_eq_twopass_of_nonneg_diffs_witness :
    (∀ x ∈ diffsBeforeClamp [1, 1] [1/2, 1/2] 2, 0 ≤ x) ∧
    Except.ok (rebalanceWithoutNegativeRebalancingIterative
        (kahanSum [1, 1]) (calculateAllocation [1, 1]).2 [1/2, 1/2] 2)
      = rebalanceWithoutNegativeRebalancing [1, 1] [1/2, 1/2] 2 :=
  ⟨by intro x hx
      simp only [diffsBeforeClamp, calculateAllocation] at hx
      rw [kahanSum_eq_sum] at hx
      norm_num at hx
      simp [hx],
   iterative_eq_twopass_of_nonneg_diffs [1, 1] [1/2, 1/2] 2 rfl
     (by intro x hx
         simp only [List.mem_cons, List.not_mem_nil, or_false] at hx
         rcases hx with rfl | rfl <;> norm_num)
     (by rw [kahanSum_eq_sum]; norm_num)
     (by norm_num)
     (by norm_num)
     (⟨1, by norm_num [diffsBeforeClamp, calculateAllocation, kahanSum_eq_sum]⟩)
     (by intro x hx
         simp only [diffsBeforeClamp, calculateAllocation] at hx
         rw [kahanSum_eq_sum] at hx
         norm_num at hx
         simp [hx])⟩

/-- C8 counterexample: magnitudes `[9/2, 24/5, 107/10]` (total 20),
targets `[1/2, 1/5, 3/10]`, `sumToAdd = 9` — a valid common input (diffs
`[10, 1, -2]`, so asset 2 is clamped).  The iterative variant returns
`[9, 0, 0]` (even-share redistribution with flooring) while the two-pass
variant returns `[90/11, 9/11, 0]` (proportional reallocation): the two
algorithms are not equivalent. -/
theorem iterative_vs_twopass_counterexample :
    kahanSum [9/2, 24/5, 107/10] = 20 ∧
    (calculateAllocation [9/2, 24/5, 107/10]).2 = [9/40, 6/25, 107/200] ∧
    (∀ x ∈ ([9/2, 24/5, 107/10] : List ℚ), 0 ≤ x) ∧
    ([(1 : ℚ)/2, 1/5, 3/10] : List ℚ).sum = 1 ∧
    (0 : ℚ) < 9 ∧
    (∃ x ∈ diffsBeforeClamp [9/2, 24/5, 107/10] [1/2, 1/5, 3/10] 9, 0 < x) ∧
    rebalanceWithoutNegativeRebalancingIterative 20 [9/40, 6/25, 107/200]
      [1/2, 1/5, 3/10] 9 = [9, 0, 0] ∧
    rebalanceWithoutNegativeRebalancing [9/2, 24/5, 107/10] [1/2, 1/5, 3/10] 9
      = Except.ok [90/11, 9/11, 0] ∧
    Except.ok (rebalanceWithoutNegativeRebalancingIterative 20
        [9/40, 6/25, 107/200] [1/2, 1/5, 3/10] 9)
      ≠ rebalanceWithoutNegativeRebalancing [9/2, 24/5, 107/10]
        [1/2, 1/5, 3/10] 9 := by
  have hiter : rebalanceWithoutNegativeRebalancingIterative 20
      [9/40, 6/25, 107/200] [1/2, 1/5, 3/10] 9 = [9, 0, 0] := by
    norm_num [rebalanceWithoutNegativeRebalancingIterative, initialRedistState,
      iterDiffs, redistLoop, passRun, passStep, List.range_succ]
    simp
  have htwo : rebalanceWithoutNegativeRebalancing [9/2, 24/5, 107/10]
      [1/2, 1/5, 3/10] 9 = Except.ok [90/11, 9/11, 0] := by
    norm_num [rebalanceWithoutNegativeRebalancing, clampedDiffs, diffsBeforeClamp,
      calculateAllocation, kahanSum_eq_sum]
  refine ⟨by rw [kahanSum_eq_sum]; norm_num,
    by norm_num [calculateAllocation, kahanSum_eq_sum],
    by intro x hx
       simp only [List.mem_cons, List.not_mem_nil, or_false] at hx
       rcases hx with rfl | rfl | rfl <;> norm_num,
    by norm_num, by norm_num,
    ⟨10, by norm_num [diffsBeforeClamp, calculateAllocation, kahanSum_eq_sum]⟩,
    hiter, htwo, ?_⟩
  rw [hiter, htwo]
  intro hcontr
  injection hcontr with hlist
  injection hlist with h1 _
  norm_num at h1
